import Mathlib

/-!
Verification development for the mcpie command-line client core:
the output-formatting subsystem, the exit-code mapper, the batch runner
with its stdin-augmentation convention, and the session lifecycle.

The repository ships the implementation as a single Python module
(`mcpie_cli/mcpie.py`); the definitions below embed that module's data
model and operations, following the specification's description of each
component and the concrete behaviour pinned by the repository's test
suite under `tests/`.
-/

/- Character-level helpers shared by the JSON serializer and parser. -/

def isWsChar (c : Char) : Bool :=
  c = ' ' || c = '\n' || c = '\t' || c = '\r'

def isDigitChar (c : Char) : Bool :=
  c = '0' || c = '1' || c = '2' || c = '3' || c = '4' ||
  c = '5' || c = '6' || c = '7' || c = '8' || c = '9'

def digitChar (d : Nat) : Char :=
  if d = 0 then '0' else if d = 1 then '1' else if d = 2 then '2'
  else if d = 3 then '3' else if d = 4 then '4' else if d = 5 then '5'
  else if d = 6 then '6' else if d = 7 then '7' else if d = 8 then '8' else '9'

def digitVal (c : Char) : Nat :=
  if c = '0' then 0 else if c = '1' then 1 else if c = '2' then 2
  else if c = '3' then 3 else if c = '4' then 4 else if c = '5' then 5
  else if c = '6' then 6 else if c = '7' then 7 else if c = '8' then 8 else 9

/-- Decimal digits of a natural number, most significant first. -/
def natChars (n : Nat) : List Char :=
  if h : n < 10 then [digitChar n]
  else natChars (n / 10) ++ [digitChar (n % 10)]
termination_by n
decreasing_by exact Nat.div_lt_self (by omega) (by omega)

/-- Lower-case a string, the Lean rendering of Python `str.lower()`. -/
def lowerStr (s : String) : String :=
  String.mk (s.data.map Char.toLower)

/-- Join a list of strings with a separator, Python `sep.join(xs)`. -/
def joinSep (sep : String) : List String → String
  | [] => ""
  | [x] => x
  | x :: xs => x ++ sep ++ joinSep sep xs

def startsWithChars : List Char → List Char → Bool
  | [], _ => true
  | _ :: _, [] => false
  | p :: ps, c :: cs => p = c && startsWithChars ps cs

/-- Substring test on character lists, Python `needle in hay`. -/
def containsChars (needle : List Char) : List Char → Bool
  | [] => needle.isEmpty
  | c :: cs => startsWithChars needle (c :: cs) || containsChars needle cs

/-!
## JSON data model

The protocol results handled by the core are "JSON-compatible mappings"
(spec §3): ordered mappings from string keys to JSON values.  The mutual
inductive below is the shallow embedding of that value space; `JsonObj` is
the ordered mapping and `JsonList` the homogeneous sequence.
-/

mutual
inductive JsonValue where
  | null : JsonValue
  | bool (b : Bool) : JsonValue
  | num (n : Int) : JsonValue
  | str (s : String) : JsonValue
  | arr (xs : JsonList) : JsonValue
  | obj (kvs : JsonObj) : JsonValue

inductive JsonList where
  | nil : JsonList
  | cons (hd : JsonValue) (tl : JsonList) : JsonList

inductive JsonObj where
  | nil : JsonObj
  | cons (k : String) (v : JsonValue) (tl : JsonObj) : JsonObj
end

/-- First binding of a key in an ordered mapping, Python `data[key]`
guarded by `key in data`. -/
def lookupO : JsonObj → String → Option JsonValue
  | JsonObj.nil, _ => none
  | JsonObj.cons k v tl, key => if k = key then some v else lookupO tl key

def listToJsonList : List JsonObj → JsonList
  | [] => JsonList.nil
  | it :: its => JsonList.cons (JsonValue.obj it) (listToJsonList its)

/-!
## Compact JSON serialization

Embedding of Python `json.dumps` with its default separators `", "` and
`": "`, as exercised by the repository's formatter tests (for example
`json.dumps({"test": "data"})` yields `'{"test": "data"}'`).
-/

def serInt (n : Int) : List Char :=
  if n < 0 then '-' :: natChars (-n).toNat else natChars n.toNat

def escapeChar (c : Char) : List Char :=
  if c = '"' then ['\\', '"']
  else if c = '\\' then ['\\', '\\']
  else if c = '\n' then ['\\', 'n']
  else if c = '\t' then ['\\', 't']
  else if c = '\r' then ['\\', 'r']
  else [c]

def escapeChars : List Char → List Char
  | [] => []
  | c :: cs => escapeChar c ++ escapeChars cs

/-- A JSON string literal: quote, escaped body, quote. -/
def serStr (s : String) : List Char :=
  '"' :: escapeChars s.data ++ ['"']

mutual
def serV : JsonValue → List Char
  | JsonValue.null => ['n', 'u', 'l', 'l']
  | JsonValue.bool true => ['t', 'r', 'u', 'e']
  | JsonValue.bool false => ['f', 'a', 'l', 's', 'e']
  | JsonValue.num n => serInt n
  | JsonValue.str s => serStr s
  | JsonValue.arr JsonList.nil => ['[', ']']
  | JsonValue.arr (JsonList.cons x xs) =>
      '[' :: serElemsCore (JsonList.cons x xs) ++ [']']
  | JsonValue.obj JsonObj.nil => ['\x7b', '\x7d']
  | JsonValue.obj (JsonObj.cons k v kvs) =>
      '\x7b' :: serMembersCore (JsonObj.cons k v kvs) ++ ['\x7d']

def serElemsCore : JsonList → List Char
  | JsonList.nil => []
  | JsonList.cons x JsonList.nil => serV x
  | JsonList.cons x (JsonList.cons y ys) =>
      serV x ++ ',' :: ' ' :: serElemsCore (JsonList.cons y ys)

def serMembersCore : JsonObj → List Char
  | JsonObj.nil => []
  | JsonObj.cons k v JsonObj.nil => serStr k ++ ':' :: ' ' :: serV v
  | JsonObj.cons k v (JsonObj.cons k2 v2 tl) =>
      serStr k ++ ':' :: ' ' :: serV v ++ ',' :: ' ' ::
        serMembersCore (JsonObj.cons k2 v2 tl)
end

/-- `json.dumps`, compact form. -/
def dumps (v : JsonValue) : String :=
  String.mk (serV v)

/-!
## JSON parsing

Embedding of Python `json.loads` as used by the external-parse side of the
round-trip property and by the stdin-augmentation path of `run_commands`.
The value parser is fuel-indexed for termination; the fuel is measured
against the input length at the top entry point.
-/

def skipWs : List Char → List Char
  | [] => []
  | c :: cs => if isWsChar c then skipWs cs else c :: cs

def dropPrefixChars : List Char → List Char → Option (List Char)
  | [], cs => some cs
  | _ :: _, [] => none
  | p :: ps, c :: cs => if c = p then dropPrefixChars ps cs else none

/-- Split a maximal run of decimal digits off the front of the input. -/
def takeDigits : List Char → List Char × List Char
  | [] => ([], [])
  | c :: cs =>
    if isDigitChar c then
      let p := takeDigits cs
      (c :: p.1, p.2)
    else ([], c :: cs)

def digitsToNat (ds : List Char) : Nat :=
  ds.foldl (fun a c => a * 10 + digitVal c) 0

def parseNatNum (cs : List Char) : Option (Nat × List Char) :=
  let p := takeDigits cs
  if p.1.isEmpty then none else some (digitsToNat p.1, p.2)

def unescapeChar (e : Char) : Option Char :=
  if e = '"' then some '"'
  else if e = '\\' then some '\\'
  else if e = 'n' then some '\n'
  else if e = 't' then some '\t'
  else if e = 'r' then some '\r'
  else none

/-- Body of a string literal, after the opening quote: decode escapes up
to the closing quote, returning the body and the remaining input. -/
def parseStringBody : List Char → Option (List Char × List Char)
  | [] => none
  | c :: cs =>
    if c = '"' then some ([], cs)
    else if c = '\\' then
      match cs with
      | [] => none
      | e :: cs2 =>
        match unescapeChar e with
        | none => none
        | some d => (parseStringBody cs2).map (fun p => (d :: p.1, p.2))
    else (parseStringBody cs).map (fun p => (c :: p.1, p.2))

mutual
def parseValue : Nat → List Char → Option (JsonValue × List Char)
  | 0, _ => none
  | _ + 1, [] => none
  | fuel + 1, c :: rest =>
    if isDigitChar c then
      (parseNatNum (c :: rest)).map (fun p => (JsonValue.num (p.1 : Int), p.2))
    else if c = '-' then
      (parseNatNum rest).map (fun p => (JsonValue.num (-(p.1 : Int)), p.2))
    else if c = 'n' then
      (dropPrefixChars ['u', 'l', 'l'] rest).map (fun r => (JsonValue.null, r))
    else if c = 't' then
      (dropPrefixChars ['r', 'u', 'e'] rest).map (fun r => (JsonValue.bool true, r))
    else if c = 'f' then
      (dropPrefixChars ['a', 'l', 's', 'e'] rest).map (fun r => (JsonValue.bool false, r))
    else if c = '"' then
      (parseStringBody rest).map (fun p => (JsonValue.str (String.mk p.1), p.2))
    else if c = '[' then
      match rest with
      | [] => none
      | c2 :: r2 =>
        if c2 = ']' then some (JsonValue.arr JsonList.nil, r2)
        else (parseElems fuel (c2 :: r2)).map (fun p => (JsonValue.arr p.1, p.2))
    else if c = '\x7b' then
      match rest with
      | [] => none
      | c2 :: r2 =>
        if c2 = '\x7d' then some (JsonValue.obj JsonObj.nil, r2)
        else (parseMembers fuel (c2 :: r2)).map (fun p => (JsonValue.obj p.1, p.2))
    else none

def parseElems : Nat → List Char → Option (JsonList × List Char)
  | 0, _ => none
  | fuel + 1, cs =>
    match parseValue fuel cs with
    | none => none
    | some vp =>
      match vp.2 with
      | [] => none
      | c :: rest2 =>
        if c = ']' then some (JsonList.cons vp.1 JsonList.nil, rest2)
        else if c = ',' then
          (parseElems fuel (skipWs rest2)).map
            (fun p => (JsonList.cons vp.1 p.1, p.2))
        else none

def parseMembers : Nat → List Char → Option (JsonObj × List Char)
  | 0, _ => none
  | _ + 1, [] => none
  | fuel + 1, c :: cs =>
    if c = '"' then
      match parseStringBody cs with
      | none => none
      | some kp =>
        match kp.2 with
        | [] => none
        | c2 :: rest2 =>
          if c2 = ':' then
            match parseValue fuel (skipWs rest2) with
            | none => none
            | some vp =>
              match vp.2 with
              | [] => none
              | c3 :: rest3 =>
                if c3 = '\x7d' then
                  some (JsonObj.cons (String.mk kp.1) vp.1 JsonObj.nil, rest3)
                else if c3 = ',' then
                  (parseMembers fuel (skipWs rest3)).map
                    (fun p => (JsonObj.cons (String.mk kp.1) vp.1 p.1, p.2))
                else none
          else none
    else none
end

/-- `json.loads`: parse a complete JSON document; trailing input is a
parse failure. -/
def parseJson (s : String) : Option JsonValue :=
  match parseValue (s.data.length + 1) s.data with
  | some (v, []) => some v
  | _ => none

/-- The input does not begin with a decimal digit, so a preceding numeric
token cannot greedily absorb it. -/
def noLeadingDigit : List Char → Bool
  | [] => true
  | c :: _ => !isDigitChar c

mutual
/-- Fuel consumed by `parseValue` on the serialization of a value. -/
def weightV : JsonValue → Nat
  | JsonValue.arr xs => 1 + weightL xs
  | JsonValue.obj kvs => 1 + weightO kvs
  | _ => 1

def weightL : JsonList → Nat
  | JsonList.nil => 0
  | JsonList.cons x tl => 1 + weightV x + weightL tl

def weightO : JsonObj → Nat
  | JsonObj.nil => 0
  | JsonObj.cons _ v tl => 1 + weightV v + weightO tl
end

/-!
## Output configuration and formatters

Five renderers share one contract (spec §4.1): render a single result
(`format_result`, with a per-format canonical empty token for a
null/absent result) and render a homogeneous listing (`format_list`, with
a per-format canonical empty-collection rendering).  The empty-collection
sentinel of the Table formatter embeds the label lower-cased, as pinned by
the repository's own test
(`tests/test_output_formatters.py::TestTableOutputFormatter::test_format_empty_list`
expects `"No test available"` for label `"Test"`).
-/

structure OutputConfig where
  output_format : String
  quiet : Bool
  verbose : Bool
  output_file : Option String

def indentStr (n : Nat) : String :=
  String.mk (List.replicate n ' ')

mutual
/-- `json.dumps(..., indent=2)` rendering of a value at indentation `ind`. -/
def prettyV (ind : Nat) : JsonValue → String
  | JsonValue.arr JsonList.nil => "[]"
  | JsonValue.arr (JsonList.cons x xs) =>
      "[\n" ++ prettyElems (ind + 2) (JsonList.cons x xs) ++ "\n" ++
        indentStr ind ++ "]"
  | JsonValue.obj JsonObj.nil => "\x7b\x7d"
  | JsonValue.obj (JsonObj.cons k v kvs) =>
      "\x7b\n" ++ prettyMembers (ind + 2) (JsonObj.cons k v kvs) ++ "\n" ++
        indentStr ind ++ "\x7d"
  | v => String.mk (serV v)

def prettyElems (ind : Nat) : JsonList → String
  | JsonList.nil => ""
  | JsonList.cons x JsonList.nil => indentStr ind ++ prettyV ind x
  | JsonList.cons x (JsonList.cons y ys) =>
      indentStr ind ++ prettyV ind x ++ ",\n" ++
        prettyElems ind (JsonList.cons y ys)

def prettyMembers (ind : Nat) : JsonObj → String
  | JsonObj.nil => ""
  | JsonObj.cons k v JsonObj.nil =>
      indentStr ind ++ String.mk (serStr k) ++ ": " ++ prettyV ind v
  | JsonObj.cons k v (JsonObj.cons k2 v2 tl) =>
      indentStr ind ++ String.mk (serStr k) ++ ": " ++ prettyV ind v ++ ",\n" ++
        prettyMembers ind (JsonObj.cons k2 v2 tl)
end

/-- Python `str()` of a JSON value used when a value is spliced into a
command argument or a table cell: strings are taken verbatim, everything
else falls back to its JSON form. -/
def argString : JsonValue → String
  | JsonValue.str s => s
  | v => dumps v

/-- Scalar rendering used by the block-style YAML emitter: scalars are
unquoted where YAML allows. -/
def yamlScalar : JsonValue → String
  | JsonValue.null => "null"
  | JsonValue.bool true => "true"
  | JsonValue.bool false => "false"
  | JsonValue.num n => String.mk (serInt n)
  | JsonValue.str s => s
  | v => dumps v

mutual
/-- Modelled from the spec: the YAML formatter's "block-style YAML
mapping/sequence serialization" (spec §4.1); the Python source delegates
to `yaml.dump`, absent from the repository snapshot, so this is a plain
block-style emitter over the embedded value space. -/
def yamlObjLines (ind : Nat) : JsonObj → List String
  | JsonObj.nil => []
  | JsonObj.cons k v tl =>
    (match v with
     | JsonValue.obj (JsonObj.cons k2 v2 t2) =>
        (indentStr ind ++ k ++ ":") ::
          yamlObjLines (ind + 2) (JsonObj.cons k2 v2 t2)
     | JsonValue.arr (JsonList.cons x xs) =>
        (indentStr ind ++ k ++ ":") ::
          yamlArrLines ind (JsonList.cons x xs)
     | sv => [indentStr ind ++ k ++ ": " ++ yamlScalar sv]) ++
    yamlObjLines ind tl

def yamlArrLines (ind : Nat) : JsonList → List String
  | JsonList.nil => []
  | JsonList.cons x xs =>
    (match x with
     | JsonValue.obj (JsonObj.cons k v t) =>
        (indentStr ind ++ "-") ::
          yamlObjLines (ind + 2) (JsonObj.cons k v t)
     | JsonValue.arr (JsonList.cons y ys) =>
        (indentStr ind ++ "-") ::
          yamlArrLines (ind + 2) (JsonList.cons y ys)
     | sv => [indentStr ind ++ "- " ++ yamlScalar sv]) ++
    yamlArrLines ind xs
end

/-- Text fields of a `content` array: entries of shape
`{type: "text", text: ...}` contribute their `text` field. -/
def textEntries : JsonList → List String
  | JsonList.nil => []
  | JsonList.cons (JsonValue.obj kvs) tl =>
    (match lookupO kvs "type", lookupO kvs "text" with
     | some (JsonValue.str "text"), some (JsonValue.str t) => [t]
     | _, _ => []) ++ textEntries tl
  | JsonList.cons _ tl => textEntries tl

/-- Text fields of a `contents` array: any entry carrying a `text` field
contributes it. -/
def textFields : JsonList → List String
  | JsonList.nil => []
  | JsonList.cons (JsonValue.obj kvs) tl =>
    (match lookupO kvs "text" with
     | some (JsonValue.str t) => [t]
     | _ => []) ++ textFields tl
  | JsonList.cons _ tl => textFields tl

/-- Raw extraction of the most "human" payload of a result mapping
(spec §4.1, Raw): `content` text entries, else `contents` text fields,
else `structuredContent.result`, else the whole mapping's string form. -/
def rawExtract (kvs : JsonObj) : String :=
  match lookupO kvs "content" with
  | some (JsonValue.arr entries) => joinSep "" (textEntries entries)
  | _ =>
    match lookupO kvs "contents" with
    | some (JsonValue.arr entries) => joinSep "" (textFields entries)
    | _ =>
      match lookupO kvs "structuredContent" with
      | some (JsonValue.obj sc) =>
        (match lookupO sc "result" with
         | some r => argString r
         | none => dumps (JsonValue.obj kvs))
      | _ => dumps (JsonValue.obj kvs)

/-- First populated of the requested display columns for one item
(spec §4.1, Raw list rendering). -/
def firstPopulated (it : JsonObj) : List String → String
  | [] => ""
  | c :: cs =>
    match lookupO it c with
    | some v => argString v
    | none => firstPopulated it cs

def cellString (it : JsonObj) (c : String) : String :=
  match lookupO it c with
  | some v => argString v
  | none => ""

/- The five formatter classes.  A result is `Option JsonValue`: `none` is
the null/absent result; items of a listing are mappings. -/

namespace JsonOutputFormatter

def format_result : Option JsonValue → String
  | none => "\x7b\x7d"
  | some v => dumps v

def format_list (items : List JsonObj) (_label : String)
    (_columns : List String) : String :=
  dumps (JsonValue.arr (listToJsonList items))

end JsonOutputFormatter

namespace PrettyOutputFormatter

def format_result : Option JsonValue → String
  | none => "\x7b\x7d"
  | some v => prettyV 0 v

def format_list (items : List JsonObj) (_label : String)
    (_columns : List String) : String :=
  prettyV 0 (JsonValue.arr (listToJsonList items))

end PrettyOutputFormatter

namespace TableOutputFormatter

def format_result : Option JsonValue → String
  | none => "No data"
  | some (JsonValue.obj kvs) =>
      joinSep "\n" (tableKVLines kvs)
  | some v => argString v
where
  tableKVLines : JsonObj → List String
    | JsonObj.nil => []
    | JsonObj.cons k v tl => (k ++ ": " ++ argString v) :: tableKVLines tl

def format_list (items : List JsonObj) (label : String)
    (columns : List String) : String :=
  if items.isEmpty then "No " ++ lowerStr label ++ " available"
  else
    let header := joinSep " | " columns
    let divider := String.mk (List.replicate header.data.length '-')
    joinSep "\n"
      (header :: divider ::
        items.map (fun it => joinSep " | " (columns.map (cellString it))))

end TableOutputFormatter

namespace YamlOutputFormatter

def format_result : Option JsonValue → String
  | none => "null"
  | some (JsonValue.obj (JsonObj.cons k v tl)) =>
      joinSep "\n" (yamlObjLines 0 (JsonObj.cons k v tl))
  | some (JsonValue.arr (JsonList.cons x xs)) =>
      joinSep "\n" (yamlArrLines 0 (JsonList.cons x xs))
  | some v => yamlScalar v

def format_list (items : List JsonObj) (_label : String)
    (_columns : List String) : String :=
  match items with
  | [] => "[]"
  | it :: its =>
      joinSep "\n" (yamlArrLines 0 (listToJsonList (it :: its)))

end YamlOutputFormatter

namespace RawOutputFormatter

def format_result : Option JsonValue → String
  | none => ""
  | some (JsonValue.obj kvs) => rawExtract kvs
  | some v => argString v

def format_list (items : List JsonObj) (_label : String)
    (columns : List String) : String :=
  joinSep "\n" (items.map (fun it => firstPopulated it columns))

end RawOutputFormatter

/-!
## Formatter factory
-/

inductive FormatterKind where
  | json | pretty | table | yaml | raw
deriving DecidableEq

/-- Modelled from the spec: `get_output_formatter(config)` is a pure total
function from `config.output_format` to a formatter, defaulting every
unrecognized format name to the JSON formatter (spec §4.2); the Python
source module is absent from the repository snapshot, behaviour pinned by
`tests/test_output_formatters.py::TestGetOutputFormatter`. -/
def get_output_formatter (config : OutputConfig) : FormatterKind :=
  match config.output_format with
  | "json" => FormatterKind.json
  | "pretty" => FormatterKind.pretty
  | "table" => FormatterKind.table
  | "yaml" => FormatterKind.yaml
  | "raw" => FormatterKind.raw
  | _ => FormatterKind.json

/- Dispatchers over the formatter kind, the polymorphic contract. -/

def format_result_of : FormatterKind → Option JsonValue → String
  | FormatterKind.json => JsonOutputFormatter.format_result
  | FormatterKind.pretty => PrettyOutputFormatter.format_result
  | FormatterKind.table => TableOutputFormatter.format_result
  | FormatterKind.yaml => YamlOutputFormatter.format_result
  | FormatterKind.raw => RawOutputFormatter.format_result

def format_list_of : FormatterKind → List JsonObj → String → List String → String
  | FormatterKind.json => JsonOutputFormatter.format_list
  | FormatterKind.pretty => PrettyOutputFormatter.format_list
  | FormatterKind.table => TableOutputFormatter.format_list
  | FormatterKind.yaml => YamlOutputFormatter.format_list
  | FormatterKind.raw => RawOutputFormatter.format_list

/-!
## Exit codes and the exit-code mapper
-/

def EXIT_SUCCESS : Nat := 0
def EXIT_CLI_ERROR : Nat := 1
def EXIT_SERVER_ERROR : Nat := 2
def EXIT_INVALID_INPUT : Nat := 3

inductive OutStream where
  | stdout | stderr
deriving DecidableEq

/-- Observable effect of `exit_with_code`: the single message printed (and
the stream it went to), if any, plus the process exit code. -/
structure ExitEffect where
  printed : Option (String × OutStream)
  code : Nat
deriving DecidableEq

/-- Modelled from the spec: `exit_with_code(code, message, quiet)` prints
`message` to standard output when `code == EXIT_SUCCESS` and to the error
stream otherwise, unless `quiet` is set or `message` is empty, in which
case nothing is printed; it then terminates the process with `code`
(spec §4.7); the Python source module is absent from the repository
snapshot, behaviour pinned by
`tests/test_exit_codes.py::TestExitWithCodeFunction`. -/
def exit_with_code (code : Nat) (message : String) (quiet : Bool) : ExitEffect :=
  if message ≠ "" && !quiet then
    if code = EXIT_SUCCESS then
      { printed := some (message, OutStream.stdout), code := code }
    else
      { printed := some (message, OutStream.stderr), code := code }
  else
    { printed := none, code := code }

/-- Case-insensitive server-keyword heuristic of the failure classifier:
`"server" in message.lower() or "mcp" in message.lower()`. -/
def containsServerKeyword (message : String) : Bool :=
  containsChars "server".data (lowerStr message).data ||
  containsChars "mcp".data (lowerStr message).data

/-- The terminal failures distinguished by the top-level handler: a user
interrupt, a JSON-decode failure, and any other exception carrying a
message. -/
inductive Failure where
  | interrupted : Failure
  | decodeError (message : String) : Failure
  | other (message : String) : Failure

/-- Modelled from the spec: the top-level failure classification feeding
`exit_with_code` — an interrupt maps to `EXIT_CLI_ERROR`, a JSON-decode
failure to `EXIT_INVALID_INPUT`, any other failure to `EXIT_SERVER_ERROR`
when its message matches the server-keyword heuristic and to
`EXIT_CLI_ERROR` otherwise (spec §4.7); the Python source module is absent
from the repository snapshot, behaviour pinned by
`tests/test_exit_codes.py::TestMainFunctionExitCodes` and
`tests/test_integration.py::TestErrorHandlingIntegration`. -/
def classify_failure : Failure → Nat
  | Failure.interrupted => EXIT_CLI_ERROR
  | Failure.decodeError _ => EXIT_INVALID_INPUT
  | Failure.other message =>
    if containsServerKeyword message then EXIT_SERVER_ERROR else EXIT_CLI_ERROR

/-!
## Batch runner and stdin augmentation
-/

def nsTool (s : String) : Bool := s = "t" || s = "tool"
def nsResource (s : String) : Bool := s = "r" || s = "resource"
def nsPrompt (s : String) : Bool := s = "p" || s = "prompt"

/-- A stdin body that is blank or whitespace-only is treated as absent
input (spec §6). -/
def isBlankInput (s : String) : Bool :=
  s.data.all isWsChar

/-- Modelled from the spec: the stdin-augmentation rules of `run_commands`
(spec §4.5) — parsed-JSON stdin is appended as the parameter argument of a
tool call or prompt get; for a resource read its `uri` field (or, as a
legacy fallback, its `name` field) is appended positionally; stdin that
fails to parse as JSON is appended verbatim as a single text argument;
the Python source module is absent from the repository snapshot, behaviour
pinned by `tests/test_stdin_input.py`. -/
def applyStdin (parts : List String) (s : String) : List String :=
  match parseJson s with
  | none => parts ++ [s]
  | some v =>
    match parts with
    | ns :: act :: _ =>
      if nsTool ns && act = "call" then parts ++ [dumps v]
      else if nsResource ns && act = "read" then
        match v with
        | JsonValue.obj kvs =>
          (match lookupO kvs "uri" with
           | some u => parts ++ [argString u]
           | none =>
             match lookupO kvs "name" with
             | some nm => parts ++ [argString nm]
             | none => parts)
        | _ => parts
      else if nsPrompt ns && act = "get" then parts ++ [dumps v]
      else parts
    | _ => parts

/-- Modelled from the spec: `run_commands(session, commands, stdin_input)`
executes exactly one logical command — the given command tuple, or the
default discovery command `tool list` when no command was supplied — after
augmenting it with the stdin payload; the returned list records the
argument vector of each `handle_command` invocation, in order (spec §4.5);
the Python source module is absent from the repository snapshot, behaviour
pinned by `tests/test_stdin_input.py`. -/
def run_commands (commands : List String) (stdin_input : Option String) :
    List (List String) :=
  let base := if commands.isEmpty then ["tool", "list"] else commands
  match stdin_input with
  | none => [base]
  | some s => if isBlankInput s then [base] else [applyStdin base s]

/-!
## Session lifecycle

A process run acquires the session, executes the batch command or the
interactive loop, and releases the session; teardown is a scoped release
performed on every exit path (spec §4.5, §4.6).
-/

inductive SessionEvent where
  | connect | execute | disconnect
deriving DecidableEq

/-- The executor invocations of one batch run, as session events. -/
def batch_trace (commands : List String) (stdin_input : Option String) :
    List SessionEvent :=
  (run_commands commands stdin_input).map (fun _ => SessionEvent.execute)

/-- Modelled from the spec: the interactive loop `run_repl` reads lines
until an exit directive or end-of-input, skipping blank lines and
executing everything else, surviving failures (spec §4.6); the Python
source module is absent from the repository snapshot. -/
def repl_trace : List String → List SessionEvent
  | [] => []
  | line :: rest =>
    if isBlankInput line then repl_trace rest
    else if line = "exit" || line = "quit" then []
    else SessionEvent.execute :: repl_trace rest

/-- Modelled from the spec: connect/disconnect as a scoped acquisition —
the runner connects, runs the body, and always attempts teardown exactly
once, whether the body succeeded or failed (`bodyFails` is the body's
outcome and does not influence the release) (spec §4.5, §4.6); the Python
source module is absent from the repository snapshot, behaviour pinned by
`tests/test_integration.py::TestCLIWorkflow`. -/
def run_with_session (body : List SessionEvent) (bodyFails : Bool) :
    List SessionEvent :=
  let _ := bodyFails
  SessionEvent.connect :: body ++ [SessionEvent.disconnect]

/-- Outcome of one process run: an early exit before any session work, or
a completed session trace. -/
inductive MainOutcome where
  | earlyExit (e : ExitEffect) : MainOutcome
  | ran (trace : List SessionEvent) : MainOutcome
deriving DecidableEq

/-- Modelled from the spec: the top entry point — when `--stdin` is given
but standard input is a terminal, the process exits with
`EXIT_INVALID_INPUT` and the fixed message before any command executes;
otherwise it runs the interactive loop (no commands, no stdin) or the
batch runner, under the scoped session (spec §4.5–§4.7); the Python source
module is absent from the repository snapshot, behaviour pinned by
`tests/test_exit_codes.py::TestStdinExitCodes` and
`tests/test_integration.py::TestErrorHandlingIntegration`. -/
def main_run (stdinFlag isatty quiet : Bool) (commands : List String)
    (stdinBody : Option String) (interactiveLines : List String)
    (bodyFails : Bool) : MainOutcome :=
  if stdinFlag && isatty then
    MainOutcome.earlyExit
      (exit_with_code EXIT_INVALID_INPUT
        "Error: --stdin flag requires input from stdin" quiet)
  else
    let stdin_input := if stdinFlag then stdinBody else none
    if commands.isEmpty && !stdinFlag then
      MainOutcome.ran (run_with_session (repl_trace interactiveLines) bodyFails)
    else
      MainOutcome.ran
        (run_with_session (batch_trace commands stdin_input) bodyFails)

/-!
## Theorems
-/

/- Helper lemmas. -/

theorem repl_trace_only_executes (lines : List String) :
    ∀ e ∈ repl_trace lines, e = SessionEvent.execute := by
  induction lines with
  | nil => intro e he; simp [repl_trace] at he
  | cons line rest ih =>
    intro e he
    by_cases hb : isBlankInput line = true
    · rw [repl_trace, if_pos hb] at he
      exact ih e he
    · rw [repl_trace, if_neg hb] at he
      by_cases hx : (line = "exit" || line = "quit") = true
      · rw [if_pos hx] at he
        simp at he
      · rw [if_neg hx] at he
        rcases List.mem_cons.mp he with h | h
        · exact h
        · exact ih e h

theorem batch_trace_only_executes (commands : List String)
    (stdin_input : Option String) :
    ∀ e ∈ batch_trace commands stdin_input, e = SessionEvent.execute := by
  intro e he
  rcases List.mem_map.mp he with ⟨_, _, h⟩
  exact h.symm

/-- Claim C1 (counterexample): the Table formatter's empty-collection
sentinel does not embed the label verbatim — for label `"Test"` it yields
`"No test available"`, not `"No Test available"` (pinned by
`tests/test_output_formatters.py::TestTableOutputFormatter::test_format_empty_list`). -/
theorem table_empty_label_lowercase_cex :
    TableOutputFormatter.format_list [] "Test" ["name"] ≠ "No Test available" := by
  decide

/-- Claim C1 (amended): for every label string and column list,
`format_list([], label, cols)` returns the format's canonical
empty-collection rendering — `"[]"` for the JSON and Pretty formatters, an
empty-list YAML literal for YAML, `""` for Raw — and the Table formatter
returns the sentinel `"No {label} available"` with the label embedded
lower-cased (so label `"Test"` yields `"No test available"`). -/
theorem format_list_empty_collections :
    ∀ (label : String) (columns : List String),
    JsonOutputFormatter.format_list [] label columns = "[]" ∧
    PrettyOutputFormatter.format_list [] label columns = "[]" ∧
    YamlOutputFormatter.format_list [] label columns = "[]" ∧
    RawOutputFormatter.format_list [] label columns = "" ∧
    TableOutputFormatter.format_list [] label columns =
      "No " ++ lowerStr label ++ " available" := by
  intro label columns
  exact ⟨rfl, rfl, rfl, rfl, rfl⟩

/-- Claim C2: the terminal-failure classification is a deterministic
function of the failure — a user interrupt maps to exit code 1, a
JSON-decode failure maps to exit code 3, and any other failure maps to
exit code 2 exactly when its message contains `"server"` or `"mcp"` in
any letter case, and to exit code 1 otherwise. -/
theorem classify_failure_deterministic :
    ∀ message : String,
    classify_failure Failure.interrupted = EXIT_CLI_ERROR ∧
    classify_failure (Failure.decodeError message) = EXIT_INVALID_INPUT ∧
    (containsServerKeyword message = true →
      classify_failure (Failure.other message) = EXIT_SERVER_ERROR) ∧
    (containsServerKeyword message = false →
      classify_failure (Failure.other message) = EXIT_CLI_ERROR) := by
  intro message
  refine ⟨rfl, rfl, ?_, ?_⟩ <;> intro h <;> simp [classify_failure, h]

/-- Witness for C2 at concrete failures: a server-keyword message maps to
exit code 2 and a generic message to exit code 1. -/
theorem classify_failure_deterministic_witness :
    classify_failure (Failure.other "MCP server connection failed") =
      EXIT_SERVER_ERROR ∧
    classify_failure (Failure.other "Generic error occurred") =
      EXIT_CLI_ERROR :=
  ⟨(classify_failure_deterministic "MCP server connection failed").2.2.1
      (by decide),
   (classify_failure_deterministic "Generic error occurred").2.2.2
      (by decide)⟩

/-- Claim C3: `exit_with_code(code, message, quiet)` prints the message to
standard output exactly when the code is `EXIT_SUCCESS` and to the error
stream for every nonzero code, performs no print at all when `quiet` is
set or the message is empty, and in every case terminates the process
with exactly the given code. -/
theorem exit_with_code_spec :
    ∀ (code : Nat) (message : String) (quiet : Bool),
    (exit_with_code code message quiet).code = code ∧
    (quiet = true → (exit_with_code code message quiet).printed = none) ∧
    (message = "" → (exit_with_code code message quiet).printed = none) ∧
    (quiet = false → message ≠ "" →
      (exit_with_code code message quiet).printed =
        some (message,
          if code = EXIT_SUCCESS then OutStream.stdout else OutStream.stderr)) := by
  intro code message quiet
  refine ⟨?_, ?_, ?_, ?_⟩
  · unfold exit_with_code
    split
    · split <;> rfl
    · rfl
  · intro hq
    subst hq
    unfold exit_with_code
    simp
  · intro hm
    subst hm
    unfold exit_with_code
    simp
  · intro hq hm
    subst hq
    unfold exit_with_code
    rw [if_pos (by simp [hm])]
    split <;> simp_all

/-- Witness for C3 at concrete inputs: a success exit prints to standard
output, a quiet error exit prints nothing, and both keep their codes. -/
theorem exit_with_code_spec_witness :
    (exit_with_code EXIT_SUCCESS "Operation completed successfully" false).printed =
      some ("Operation completed successfully", OutStream.stdout) ∧
    (exit_with_code EXIT_CLI_ERROR "Error message" true).printed = none ∧
    (exit_with_code EXIT_CLI_ERROR "Error message" true).code = EXIT_CLI_ERROR := by
  refine ⟨?_, ?_, ?_⟩
  · have h :=
      (exit_with_code_spec EXIT_SUCCESS "Operation completed successfully"
        false).2.2.2 rfl (by decide)
    simpa using h
  · exact (exit_with_code_spec EXIT_CLI_ERROR "Error message" true).2.1 rfl
  · exact (exit_with_code_spec EXIT_CLI_ERROR "Error message" true).1

/-- Claim C4: for every formatter variant, `format_result` applied to a
null/absent result returns that format's fixed empty token: `{}` for JSON
and Pretty, `null` for YAML, `""` for Raw, and the human `"No data"`
sentinel for Table. -/
theorem format_result_null_tokens :
    JsonOutputFormatter.format_result none = "\x7b\x7d" ∧
    PrettyOutputFormatter.format_result none = "\x7b\x7d" ∧
    YamlOutputFormatter.format_result none = "null" ∧
    RawOutputFormatter.format_result none = "" ∧
    TableOutputFormatter.format_result none = "No data" :=
  ⟨rfl, rfl, rfl, rfl, rfl⟩

/-- Claim C6: `get_output_formatter` is total and defaulting — each of the
five recognized names yields the corresponding formatter, and every
unrecognized format string yields the JSON formatter. -/
theorem get_output_formatter_total_default :
    ∀ cfg : OutputConfig,
    (cfg.output_format = "json" → get_output_formatter cfg = FormatterKind.json) ∧
    (cfg.output_format = "pretty" → get_output_formatter cfg = FormatterKind.pretty) ∧
    (cfg.output_format = "table" → get_output_formatter cfg = FormatterKind.table) ∧
    (cfg.output_format = "yaml" → get_output_formatter cfg = FormatterKind.yaml) ∧
    (cfg.output_format = "raw" → get_output_formatter cfg = FormatterKind.raw) ∧
    (cfg.output_format ≠ "json" → cfg.output_format ≠ "pretty" →
     cfg.output_format ≠ "table" → cfg.output_format ≠ "yaml" →
     cfg.output_format ≠ "raw" → get_output_formatter cfg = FormatterKind.json) := by
  intro cfg
  obtain ⟨fmt, q, vb, fl⟩ := cfg
  refine ⟨?_, ?_, ?_, ?_, ?_, ?_⟩
  · intro h; simp only at h; subst h; rfl
  · intro h; simp only at h; subst h; rfl
  · intro h; simp only at h; subst h; rfl
  · intro h; simp only at h; subst h; rfl
  · intro h; simp only at h; subst h; rfl
  · intro h1 h2 h3 h4 h5
    unfold get_output_formatter
    split <;> simp_all

/-- Witness for C6 at concrete configurations: `"yaml"` resolves to the
YAML formatter and the unrecognized name `"unknown"` defaults to JSON. -/
theorem get_output_formatter_total_default_witness :
    get_output_formatter ⟨"yaml", false, false, none⟩ = FormatterKind.yaml ∧
    get_output_formatter ⟨"unknown", false, false, none⟩ = FormatterKind.json :=
  ⟨(get_output_formatter_total_default ⟨"yaml", false, false, none⟩).2.2.2.1 rfl,
   (get_output_formatter_total_default ⟨"unknown", false, false, none⟩).2.2.2.2.2
     (by decide) (by decide) (by decide) (by decide) (by decide)⟩

/-- Claim C7: when the command tuple is empty and stdin input is absent,
empty, or whitespace-only, `run_commands` substitutes the default command
`tool list` and invokes the command executor exactly once; being a total
function, it never fails in this situation. -/
theorem run_commands_default_tool_list :
    ∀ stdin_input : Option String,
    (stdin_input = none ∨
      ∃ s, stdin_input = some s ∧ isBlankInput s = true) →
    run_commands [] stdin_input = [["tool", "list"]] := by
  intro stdin_input h
  rcases h with h | ⟨s, hs, hb⟩
  · subst h; rfl
  · subst hs
    simp [run_commands, hb]

/-- Witness for C7: absent, empty, and whitespace-only stdin each produce
exactly the one default `tool list` invocation. -/
theorem run_commands_default_tool_list_witness :
    run_commands [] none = [["tool", "list"]] ∧
    run_commands [] (some "") = [["tool", "list"]] ∧
    run_commands [] (some "   ") = [["tool", "list"]] :=
  ⟨run_commands_default_tool_list none (Or.inl rfl),
   run_commands_default_tool_list (some "") (Or.inr ⟨"", rfl, by decide⟩),
   run_commands_default_tool_list (some "   ") (Or.inr ⟨"   ", rfl, by decide⟩)⟩

/-- Claim C8: for a resource-read command with JSON-object stdin input,
the object's `uri` field is appended as the URI argument of the read; in
its absence the legacy `name` field is appended positionally in the same
slot. -/
theorem run_commands_stdin_resource_read :
    ∀ ns : String, nsResource ns = true →
    ∀ (s : String) (kvs : JsonObj),
    isBlankInput s = false →
    parseJson s = some (JsonValue.obj kvs) →
    (∀ u, lookupO kvs "uri" = some u →
      run_commands [ns, "read"] (some s) = [[ns, "read", argString u]]) ∧
    (lookupO kvs "uri" = none →
      ∀ nm, lookupO kvs "name" = some nm →
      run_commands [ns, "read"] (some s) = [[ns, "read", argString nm]]) := by
  intro ns hns s kvs hblank hparse
  constructor
  · intro u hu
    simp [run_commands, hblank, applyStdin, hparse, hns, hu]
  · intro hnone nm hnm
    simp [run_commands, hblank, applyStdin, hparse, hns, hnone, hnm]

/-- Witness for C8, the claim's scenario: stdin `'{"name": "test_tool"}'`
with commands `("r", "read")` constructs a read of target `test_tool`
via the legacy `name` fallback, not a parse failure. -/
theorem run_commands_stdin_resource_read_witness :
    run_commands ["r", "read"] (some "\x7b\"name\": \"test_tool\"\x7d") =
      [["r", "read", "test_tool"]] := by
  have h :=
    (run_commands_stdin_resource_read "r" rfl
      "\x7b\"name\": \"test_tool\"\x7d"
      (JsonObj.cons "name" (JsonValue.str "test_tool") JsonObj.nil)
      (by decide) rfl).2 rfl (JsonValue.str "test_tool") rfl
  simpa using h

/-- Claim C9: on every exit path of a process run — batch or interactive,
whether command execution succeeds or fails — the session trace attempts
teardown exactly once, after connect, never skipped and never duplicated:
the trace is exactly connect, then executor invocations only, then a
single disconnect. -/
theorem session_teardown_exactly_once :
    ∀ (commands : List String) (stdin_input : Option String)
      (lines : List String) (batchFails replFails : Bool),
    (∃ body, run_with_session (batch_trace commands stdin_input) batchFails =
        SessionEvent.connect :: body ++ [SessionEvent.disconnect] ∧
        SessionEvent.connect ∉ body ∧ SessionEvent.disconnect ∉ body) ∧
    (∃ body, run_with_session (repl_trace lines) replFails =
        SessionEvent.connect :: body ++ [SessionEvent.disconnect] ∧
        SessionEvent.connect ∉ body ∧ SessionEvent.disconnect ∉ body) := by
  intro commands stdin_input lines bf rf
  constructor
  · refine ⟨batch_trace commands stdin_input, rfl, ?_, ?_⟩
    · intro hmem
      exact absurd (batch_trace_only_executes commands stdin_input _ hmem)
        (by decide)
    · intro hmem
      exact absurd (batch_trace_only_executes commands stdin_input _ hmem)
        (by decide)
  · refine ⟨repl_trace lines, rfl, ?_, ?_⟩
    · intro hmem
      exact absurd (repl_trace_only_executes lines _ hmem) (by decide)
    · intro hmem
      exact absurd (repl_trace_only_executes lines _ hmem) (by decide)

/-- Claim C10: when the `--stdin` flag is given but standard input is a
terminal, the process exits early — before any command executes — with
exit code `EXIT_INVALID_INPUT` and (unless quiet) the message
`"Error: --stdin flag requires input from stdin"` on the error stream. -/
theorem stdin_tty_early_exit :
    ∀ (quiet : Bool) (commands : List String) (stdinBody : Option String)
      (lines : List String) (bodyFails : Bool),
    main_run true true quiet commands stdinBody lines bodyFails =
      MainOutcome.earlyExit
        { printed :=
            if quiet then none
            else some ("Error: --stdin flag requires input from stdin",
                       OutStream.stderr),
          code := EXIT_INVALID_INPUT } := by
  intro quiet commands stdinBody lines bodyFails
  cases quiet <;> rfl

/- Round-trip development: `parseJson` inverts the compact serializer. -/

theorem dropPrefixChars_append (ps rest : List Char) :
    dropPrefixChars ps (ps ++ rest) = some rest := by
  induction ps with
  | nil => rfl
  | cons p ps ih => simp [dropPrefixChars, ih]

theorem digitChar_is_digit (d : Nat) : isDigitChar (digitChar d) = true := by
  unfold digitChar
  repeat' split
  all_goals decide

theorem digitVal_digitChar (d : Nat) (hd : d < 10) :
    digitVal (digitChar d) = d := by
  interval_cases d <;> decide

theorem natChars_ne_nil (n : Nat) : natChars n ≠ [] := by
  rw [natChars]
  split <;> simp

theorem natChars_all_digits (n : Nat) :
    ∀ c ∈ natChars n, isDigitChar c = true := by
  induction n using Nat.strong_induction_on with
  | _ n ih =>
    intro c hc
    rw [natChars] at hc
    split at hc
    · simp at hc
      subst hc
      exact digitChar_is_digit n
    · rcases List.mem_append.mp hc with h | h
      · exact ih (n / 10) (Nat.div_lt_self (by omega) (by omega)) c h
      · simp at h
        subst h
        exact digitChar_is_digit (n % 10)

theorem digitsToNat_append_one (xs : List Char) (c : Char) :
    digitsToNat (xs ++ [c]) = 10 * digitsToNat xs + digitVal c := by
  unfold digitsToNat
  rw [List.foldl_append]
  simp [Nat.mul_comm]

theorem digitsToNat_natChars (n : Nat) : digitsToNat (natChars n) = n := by
  induction n using Nat.strong_induction_on with
  | _ n ih =>
    rw [natChars]
    split
    · simp [digitsToNat, digitVal_digitChar n (by omega)]
    · rw [digitsToNat_append_one,
        ih (n / 10) (Nat.div_lt_self (by omega) (by omega)),
        digitVal_digitChar (n % 10) (by omega)]
      omega

theorem takeDigits_append (ds rest : List Char)
    (hds : ∀ c ∈ ds, isDigitChar c = true)
    (hrest : noLeadingDigit rest = true) :
    takeDigits (ds ++ rest) = (ds, rest) := by
  induction ds with
  | nil =>
    cases rest with
    | nil => rfl
    | cons c cs =>
      simp [noLeadingDigit] at hrest
      simp [takeDigits, hrest]
  | cons d ds ih =>
    have hd : isDigitChar d = true := hds d (by simp)
    have hds2 : ∀ c ∈ ds, isDigitChar c = true := fun c hc => hds c (by simp [hc])
    simp [takeDigits, hd, ih hds2]

theorem parseNatNum_natChars (n : Nat) (rest : List Char)
    (hrest : noLeadingDigit rest = true) :
    parseNatNum (natChars n ++ rest) = some (n, rest) := by
  unfold parseNatNum
  rw [takeDigits_append (natChars n) rest (natChars_all_digits n) hrest]
  simp [natChars_ne_nil n, digitsToNat_natChars n]

theorem parseStringBody_quote (cs : List Char) :
    parseStringBody ('"' :: cs) = some ([], cs) := by
  rw [parseStringBody.eq_def]
  simp

theorem parseStringBody_esc (e : Char) (cs2 : List Char) :
    parseStringBody ('\\' :: e :: cs2) =
      match unescapeChar e with
      | none => none
      | some d => (parseStringBody cs2).map (fun p => (d :: p.1, p.2)) := by
  rw [parseStringBody.eq_def]
  simp

theorem parseStringBody_other (c : Char) (cs : List Char)
    (h1 : c ≠ '"') (h2 : c ≠ '\\') :
    parseStringBody (c :: cs) =
      (parseStringBody cs).map (fun p => (c :: p.1, p.2)) := by
  rw [parseStringBody.eq_def]
  simp [h1, h2]

theorem parseStringBody_escape (cs rest : List Char) :
    parseStringBody (escapeChars cs ++ '"' :: rest) = some (cs, rest) := by
  induction cs with
  | nil =>
    rw [show escapeChars [] = [] from rfl, List.nil_append, parseStringBody_quote]
  | cons c cs ih =>
    by_cases h1 : c = '"'
    · subst h1
      rw [show escapeChars ('"' :: cs) = '\\' :: '"' :: escapeChars cs from rfl,
        List.cons_append, List.cons_append, parseStringBody_esc]
      simp [unescapeChar, ih]
    · by_cases h2 : c = '\\'
      · subst h2
        rw [show escapeChars ('\\' :: cs) = '\\' :: '\\' :: escapeChars cs
            from rfl,
          List.cons_append, List.cons_append, parseStringBody_esc]
        simp [unescapeChar, ih]
      · by_cases h3 : c = '\n'
        · subst h3
          rw [show escapeChars ('\n' :: cs) = '\\' :: 'n' :: escapeChars cs
              from rfl,
            List.cons_append, List.cons_append, parseStringBody_esc]
          simp [unescapeChar, ih]
        · by_cases h4 : c = '\t'
          · subst h4
            rw [show escapeChars ('\t' :: cs) = '\\' :: 't' :: escapeChars cs
                from rfl,
              List.cons_append, List.cons_append, parseStringBody_esc]
            simp [unescapeChar, ih]
          · by_cases h5 : c = '\r'
            · subst h5
              rw [show escapeChars ('\r' :: cs) = '\\' :: 'r' :: escapeChars cs
                  from rfl,
                List.cons_append, List.cons_append, parseStringBody_esc]
              simp [unescapeChar, ih]
            · have he : escapeChars (c :: cs) = c :: escapeChars cs := by
                rw [show escapeChars (c :: cs) = escapeChar c ++ escapeChars cs
                    from rfl]
                rw [escapeChar, if_neg h1, if_neg h2, if_neg h3, if_neg h4,
                  if_neg h5, List.singleton_append]
              rw [he, List.cons_append, parseStringBody_other c _ h1 h2, ih]
              rfl

theorem isDigitChar_elim (c : Char) (h : isDigitChar c = true) :
    c = '0' ∨ c = '1' ∨ c = '2' ∨ c = '3' ∨ c = '4' ∨ c = '5' ∨ c = '6' ∨
    c = '7' ∨ c = '8' ∨ c = '9' := by
  simp [isDigitChar] at h
  tauto

theorem digit_char_facts (c : Char) (h : isDigitChar c = true) :
    isWsChar c = false ∧ c ≠ ']' := by
  rcases isDigitChar_elim c h with rfl | rfl | rfl | rfl | rfl | rfl | rfl |
    rfl | rfl | rfl <;> exact ⟨by decide, by decide⟩

theorem serInt_ne_nil (n : Int) : serInt n ≠ [] := by
  rw [serInt]
  split
  · simp
  · exact natChars_ne_nil _

theorem serV_head (v : JsonValue) :
    ∃ c cs, serV v = c :: cs ∧ isWsChar c = false ∧ c ≠ ']' := by
  cases v with
  | null => exact ⟨'n', _, rfl, by decide, by decide⟩
  | bool b =>
    cases b
    · exact ⟨'f', _, rfl, by decide, by decide⟩
    · exact ⟨'t', _, rfl, by decide, by decide⟩
  | num n =>
    rw [serV, serInt]
    by_cases hn : n < 0
    · rw [if_pos hn]
      exact ⟨'-', _, rfl, by decide, by decide⟩
    · rw [if_neg hn]
      obtain ⟨c, cs, hc⟩ := List.exists_cons_of_ne_nil (natChars_ne_nil n.toNat)
      have hd : isDigitChar c = true :=
        natChars_all_digits n.toNat c (by rw [hc]; simp)
      obtain ⟨hw, hne⟩ := digit_char_facts c hd
      exact ⟨c, cs, hc, hw, hne⟩
  | str s =>
    refine ⟨'"', escapeChars s.data ++ ['"'], ?_, by decide, by decide⟩
    rw [serV, serStr]
    rfl
  | arr xs =>
    cases xs with
    | nil => exact ⟨'[', _, rfl, by decide, by decide⟩
    | cons x tl =>
      refine ⟨'[', serElemsCore (JsonList.cons x tl) ++ [']'], ?_,
        by decide, by decide⟩
      rw [serV]
      rfl
  | obj kvs =>
    cases kvs with
    | nil => exact ⟨'\x7b', _, rfl, by decide, by decide⟩
    | cons k v tl =>
      refine ⟨'\x7b', serMembersCore (JsonObj.cons k v tl) ++ ['\x7d'], ?_,
        by decide, by decide⟩
      rw [serV]
      rfl

theorem serElemsCore_cons_head (x : JsonValue) (tl : JsonList) :
    ∃ c cs, serElemsCore (JsonList.cons x tl) = c :: cs ∧
      isWsChar c = false ∧ c ≠ ']' := by
  obtain ⟨c, cs, hc, hw, hne⟩ := serV_head x
  cases tl with
  | nil => exact ⟨c, cs, by rw [serElemsCore, hc], hw, hne⟩
  | cons y ys =>
    exact ⟨c, cs ++ ',' :: ' ' :: serElemsCore (JsonList.cons y ys),
      by rw [serElemsCore, hc, List.cons_append], hw, hne⟩

theorem serMembersCore_cons_head (k : String) (v : JsonValue) (tl : JsonObj) :
    ∃ cs, serMembersCore (JsonObj.cons k v tl) = '"' :: cs := by
  cases tl with
  | nil =>
    refine ⟨(escapeChars k.data ++ ['"']) ++ ':' :: ' ' :: serV v, ?_⟩
    rw [serMembersCore, serStr, List.cons_append]
    rfl
  | cons k2 v2 t2 =>
    refine ⟨(escapeChars k.data ++ ['"']) ++ ':' :: ' ' :: serV v ++
      ',' :: ' ' :: serMembersCore (JsonObj.cons k2 v2 t2), ?_⟩
    rw [serMembersCore, serStr, List.cons_append]
    rfl

theorem skipWs_not_ws (c : Char) (cs : List Char) (h : isWsChar c = false) :
    skipWs (c :: cs) = c :: cs := by
  simp [skipWs, h]

theorem skipWs_space (cs : List Char) : skipWs (' ' :: cs) = skipWs cs := by
  simp [skipWs, isWsChar]

theorem weightV_pos (v : JsonValue) : 1 ≤ weightV v := by
  cases v <;> rw [weightV] <;> first | omega | simp

theorem weightL_cons_pos (x : JsonValue) (tl : JsonList) :
    1 ≤ weightL (JsonList.cons x tl) := by
  rw [weightL]; omega

theorem weightO_cons_pos (k : String) (v : JsonValue) (tl : JsonObj) :
    1 ≤ weightO (JsonObj.cons k v tl) := by
  rw [weightO]; omega

mutual
theorem weightV_le_len (v : JsonValue) : weightV v ≤ (serV v).length := by
  cases v with
  | null =>
    have h : weightV JsonValue.null = 1 := by rw [weightV] <;> simp
    rw [h]; decide
  | bool b =>
    have h : weightV (JsonValue.bool b) = 1 := by rw [weightV] <;> simp
    rw [h]; cases b <;> decide
  | num n =>
    have h : weightV (JsonValue.num n) = 1 := by rw [weightV] <;> simp
    rw [h, serV]
    have := List.length_pos.mpr (serInt_ne_nil n)
    omega
  | str s =>
    have h : weightV (JsonValue.str s) = 1 := by rw [weightV] <;> simp
    rw [h, serV, serStr]
    simp
  | arr xs =>
    cases xs with
    | nil =>
      rw [weightV, weightL]
      decide
    | cons x tl =>
      rw [weightV, serV]
      have hL := weightL_le_len (JsonList.cons x tl)
      simp only [List.length_cons, List.length_append]
      omega
  | obj kvs =>
    cases kvs with
    | nil =>
      rw [weightV, weightO]
      decide
    | cons k v tl =>
      rw [weightV, serV]
      have hO := weightO_le_len (JsonObj.cons k v tl)
      simp only [List.length_cons, List.length_append]
      omega

theorem weightL_le_len (xs : JsonList) :
    weightL xs ≤ 1 + (serElemsCore xs).length := by
  cases xs with
  | nil => rw [weightL]; omega
  | cons x tl =>
    rw [weightL]
    cases tl with
    | nil =>
      rw [serElemsCore, weightL]
      have := weightV_le_len x
      omega
    | cons y ys =>
      rw [serElemsCore]
      have h1 := weightV_le_len x
      have h2 := weightL_le_len (JsonList.cons y ys)
      simp only [List.length_cons, List.length_append]
      omega

theorem weightO_le_len (kvs : JsonObj) :
    weightO kvs ≤ 1 + (serMembersCore kvs).length := by
  cases kvs with
  | nil => rw [weightO]; omega
  | cons k v tl =>
    rw [weightO]
    cases tl with
    | nil =>
      rw [serMembersCore, weightO]
      have := weightV_le_len v
      simp only [List.length_cons, List.length_append]
      omega
    | cons k2 v2 t2 =>
      rw [serMembersCore]
      have h1 := weightV_le_len v
      have h2 := weightO_le_len (JsonObj.cons k2 v2 t2)
      simp only [List.length_cons, List.length_append]
      omega
end

/- Dispatch lemmas: one-step unfolding of `parseValue` by leading character. -/

theorem parseValue_digit (fuel : Nat) (c : Char) (cs : List Char)
    (h : isDigitChar c = true) :
    parseValue (fuel + 1) (c :: cs) =
      (parseNatNum (c :: cs)).map
        (fun p => (JsonValue.num (p.1 : Int), p.2)) := by
  rw [parseValue.eq_def]
  simp [h]

theorem parseValue_minus (fuel : Nat) (cs : List Char) :
    parseValue (fuel + 1) ('-' :: cs) =
      (parseNatNum cs).map (fun p => (JsonValue.num (-(p.1 : Int)), p.2)) := by
  rw [parseValue.eq_def]
  simp [isDigitChar]

theorem parseValue_n (fuel : Nat) (cs : List Char) :
    parseValue (fuel + 1) ('n' :: cs) =
      (dropPrefixChars ['u', 'l', 'l'] cs).map (fun r => (JsonValue.null, r)) := by
  rw [parseValue.eq_def]
  simp [isDigitChar]

theorem parseValue_t (fuel : Nat) (cs : List Char) :
    parseValue (fuel + 1) ('t' :: cs) =
      (dropPrefixChars ['r', 'u', 'e'] cs).map
        (fun r => (JsonValue.bool true, r)) := by
  rw [parseValue.eq_def]
  simp [isDigitChar]

theorem parseValue_f (fuel : Nat) (cs : List Char) :
    parseValue (fuel + 1) ('f' :: cs) =
      (dropPrefixChars ['a', 'l', 's', 'e'] cs).map
        (fun r => (JsonValue.bool false, r)) := by
  rw [parseValue.eq_def]
  simp [isDigitChar]

theorem parseValue_quote (fuel : Nat) (cs : List Char) :
    parseValue (fuel + 1) ('"' :: cs) =
      (parseStringBody cs).map
        (fun p => (JsonValue.str (String.mk p.1), p.2)) := by
  rw [parseValue.eq_def]
  simp [isDigitChar]

theorem parseValue_lbrack (fuel : Nat) (c2 : Char) (r2 : List Char) :
    parseValue (fuel + 1) ('[' :: c2 :: r2) =
      (if c2 = ']' then some (JsonValue.arr JsonList.nil, r2)
       else (parseElems fuel (c2 :: r2)).map
         (fun p => (JsonValue.arr p.1, p.2))) := by
  rw [parseValue.eq_def]
  simp [isDigitChar]

theorem parseValue_lbrace (fuel : Nat) (c2 : Char) (r2 : List Char) :
    parseValue (fuel + 1) ('\x7b' :: c2 :: r2) =
      (if c2 = '\x7d' then some (JsonValue.obj JsonObj.nil, r2)
       else (parseMembers fuel (c2 :: r2)).map
         (fun p => (JsonValue.obj p.1, p.2))) := by
  rw [parseValue.eq_def]
  simp [isDigitChar]

/-- The parser consumes exactly the serializer's output: at sufficient
fuel, `parseValue` inverts `serV`, `parseElems` inverts `serElemsCore`
up to the closing bracket, and `parseMembers` inverts `serMembersCore`
up to the closing brace. -/
theorem parse_ser_aux (fuel : Nat) :
    (∀ v rest, weightV v ≤ fuel → noLeadingDigit rest = true →
      parseValue fuel (serV v ++ rest) = some (v, rest)) ∧
    (∀ xs rest, xs ≠ JsonList.nil → weightL xs ≤ fuel →
      parseElems fuel (serElemsCore xs ++ ']' :: rest) = some (xs, rest)) ∧
    (∀ kvs rest, kvs ≠ JsonObj.nil → weightO kvs ≤ fuel →
      parseMembers fuel (serMembersCore kvs ++ '\x7d' :: rest) =
        some (kvs, rest)) := by
  induction fuel with
  | zero =>
    refine ⟨?_, ?_, ?_⟩
    · intro v rest hw _
      exact absurd hw (by have := weightV_pos v; omega)
    · intro xs rest hne hw
      cases xs with
      | nil => exact absurd rfl hne
      | cons x tl => exact absurd hw (by have := weightL_cons_pos x tl; omega)
    · intro kvs rest hne hw
      cases kvs with
      | nil => exact absurd rfl hne
      | cons k v tl =>
        exact absurd hw (by have := weightO_cons_pos k v tl; omega)
  | succ fuel ih =>
    obtain ⟨ihV, ihE, ihM⟩ := ih
    refine ⟨?_, ?_, ?_⟩
    · intro v rest hw hnd
      cases v with
      | null =>
        have h := dropPrefixChars_append ['u', 'l', 'l'] rest
        rw [show serV JsonValue.null ++ rest = 'n' :: (['u', 'l', 'l'] ++ rest)
            from rfl,
          parseValue_n, h]
        rfl
      | bool b =>
        cases b
        · have h := dropPrefixChars_append ['a', 'l', 's', 'e'] rest
          rw [show serV (JsonValue.bool false) ++ rest =
              'f' :: (['a', 'l', 's', 'e'] ++ rest) from rfl,
            parseValue_f, h]
          rfl
        · have h := dropPrefixChars_append ['r', 'u', 'e'] rest
          rw [show serV (JsonValue.bool true) ++ rest =
              't' :: (['r', 'u', 'e'] ++ rest) from rfl,
            parseValue_t, h]
          rfl
      | num n =>
        by_cases hn : n < 0
        · have hser : serV (JsonValue.num n) = '-' :: natChars (-n).toNat := by
            rw [serV, serInt, if_pos hn]
          rw [hser, List.cons_append, parseValue_minus,
            parseNatNum_natChars _ _ hnd]
          have hval : (-(((-n).toNat : Nat) : Int)) = n := by omega
          show some (JsonValue.num (-(((-n).toNat : Nat) : Int)), rest) =
            some (JsonValue.num n, rest)
          rw [hval]
        · have hser : serV (JsonValue.num n) = natChars n.toNat := by
            rw [serV, serInt, if_neg hn]
          obtain ⟨c, cs, hc⟩ :=
            List.exists_cons_of_ne_nil (natChars_ne_nil n.toNat)
          have hd : isDigitChar c = true :=
            natChars_all_digits n.toNat c (by rw [hc]; simp)
          rw [hser, hc, List.cons_append, parseValue_digit fuel c _ hd,
            show c :: (cs ++ rest) = (c :: cs) ++ rest from rfl, ← hc,
            parseNatNum_natChars _ _ hnd]
          have hval : ((n.toNat : Nat) : Int) = n := by omega
          show some (JsonValue.num ((n.toNat : Nat) : Int), rest) =
            some (JsonValue.num n, rest)
          rw [hval]
      | str s =>
        have hser : serV (JsonValue.str s) ++ rest =
            '"' :: (escapeChars s.data ++ '"' :: rest) := by
          rw [serV, serStr]
          simp
        rw [hser, parseValue_quote, parseStringBody_escape]
        rfl
      | arr xs =>
        cases xs with
        | nil =>
          rw [show serV (JsonValue.arr JsonList.nil) ++ rest =
              '[' :: ']' :: rest from rfl,
            parseValue_lbrack, if_pos rfl]
        | cons x tl =>
          obtain ⟨c, cs, hc, hcw, hcne⟩ := serElemsCore_cons_head x tl
          have hser : serV (JsonValue.arr (JsonList.cons x tl)) ++ rest =
              '[' :: c :: (cs ++ ']' :: rest) := by
            rw [serV, hc]
            simp
          rw [hser, parseValue_lbrack, if_neg hcne]
          have hre : c :: (cs ++ ']' :: rest) =
              serElemsCore (JsonList.cons x tl) ++ ']' :: rest := by
            rw [hc, List.cons_append]
          rw [hre, ihE (JsonList.cons x tl) rest (by simp)
            (by rw [weightV] at hw; omega)]
          rfl
      | obj kvs =>
        cases kvs with
        | nil =>
          rw [show serV (JsonValue.obj JsonObj.nil) ++ rest =
              '\x7b' :: '\x7d' :: rest from rfl,
            parseValue_lbrace, if_pos rfl]
        | cons k v tl =>
          obtain ⟨cs0, hc⟩ := serMembersCore_cons_head k v tl
          have hser : serV (JsonValue.obj (JsonObj.cons k v tl)) ++ rest =
              '\x7b' :: '"' :: (cs0 ++ '\x7d' :: rest) := by
            rw [serV, hc]
            simp
          rw [hser, parseValue_lbrace, if_neg (by decide)]
          have hre : '"' :: (cs0 ++ '\x7d' :: rest) =
              serMembersCore (JsonObj.cons k v tl) ++ '\x7d' :: rest := by
            rw [hc, List.cons_append]
          rw [hre, ihM (JsonObj.cons k v tl) rest (by simp)
            (by rw [weightV] at hw; omega)]
          rfl
    · intro xs rest hne hw
      cases xs with
      | nil => exact absurd rfl hne
      | cons x tl =>
        cases tl with
        | nil =>
          have hone : serElemsCore (JsonList.cons x JsonList.nil) ++
              ']' :: rest = serV x ++ ']' :: rest := by
            rw [serElemsCore]
          have hv := ihV x (']' :: rest)
            (by rw [weightL, weightL] at hw; omega) rfl
          rw [hone, parseElems, hv]
          rfl
        | cons y ys =>
          have htwo : serElemsCore (JsonList.cons x (JsonList.cons y ys)) ++
              ']' :: rest =
              serV x ++ ',' :: ' ' ::
                (serElemsCore (JsonList.cons y ys) ++ ']' :: rest) := by
            rw [serElemsCore]
            simp
          have hv := ihV x
            (',' :: ' ' :: (serElemsCore (JsonList.cons y ys) ++ ']' :: rest))
            (by rw [weightL] at hw; omega) rfl
          rw [htwo, parseElems, hv]
          have hskip : skipWs (' ' ::
              (serElemsCore (JsonList.cons y ys) ++ ']' :: rest)) =
              serElemsCore (JsonList.cons y ys) ++ ']' :: rest := by
            obtain ⟨c, cs, hc, hws, _⟩ := serElemsCore_cons_head y ys
            rw [skipWs_space, hc, List.cons_append, skipWs_not_ws _ _ hws,
              ← List.cons_append, ← hc]
          have he := ihE (JsonList.cons y ys) rest (by simp)
            (by rw [weightL] at hw; omega)
          simp only [hskip, he]
          rfl
    · intro kvs rest hne hw
      cases kvs with
      | nil => exact absurd rfl hne
      | cons k v tl =>
        cases tl with
        | nil =>
          have hone : serMembersCore (JsonObj.cons k v JsonObj.nil) ++
              '\x7d' :: rest =
              '"' :: (escapeChars k.data ++
                '"' :: (':' :: ' ' :: (serV v ++ '\x7d' :: rest))) := by
            rw [serMembersCore, serStr]
            simp
          rw [hone, parseMembers, if_pos rfl, parseStringBody_escape]
          have hskip : skipWs (' ' :: (serV v ++ '\x7d' :: rest)) =
              serV v ++ '\x7d' :: rest := by
            obtain ⟨c, cs, hc, hws, _⟩ := serV_head v
            rw [skipWs_space, hc, List.cons_append, skipWs_not_ws _ _ hws,
              ← List.cons_append, ← hc]
          have hv := ihV v ('\x7d' :: rest)
            (by rw [weightO, weightO] at hw; omega) rfl
          simp only [hskip, hv]
          rfl
        | cons k2 v2 t2 =>
          have htwo : serMembersCore (JsonObj.cons k v (JsonObj.cons k2 v2 t2))
              ++ '\x7d' :: rest =
              '"' :: (escapeChars k.data ++
                '"' :: (':' :: ' ' :: (serV v ++ ',' :: ' ' ::
                  (serMembersCore (JsonObj.cons k2 v2 t2) ++
                    '\x7d' :: rest)))) := by
            rw [serMembersCore, serStr]
            simp
          rw [htwo, parseMembers, if_pos rfl, parseStringBody_escape]
          have hskip1 : skipWs (' ' :: (serV v ++ ',' :: ' ' ::
              (serMembersCore (JsonObj.cons k2 v2 t2) ++ '\x7d' :: rest))) =
              serV v ++ ',' :: ' ' ::
                (serMembersCore (JsonObj.cons k2 v2 t2) ++ '\x7d' :: rest) := by
            obtain ⟨c, cs, hc, hws, _⟩ := serV_head v
            rw [skipWs_space, hc, List.cons_append, skipWs_not_ws _ _ hws,
              ← List.cons_append, ← hc]
          have hv := ihV v (',' :: ' ' ::
              (serMembersCore (JsonObj.cons k2 v2 t2) ++ '\x7d' :: rest))
            (by rw [weightO] at hw; omega) rfl
          have hskip2 : skipWs (' ' ::
              (serMembersCore (JsonObj.cons k2 v2 t2) ++ '\x7d' :: rest)) =
              serMembersCore (JsonObj.cons k2 v2 t2) ++ '\x7d' :: rest := by
            obtain ⟨cs0, hc⟩ := serMembersCore_cons_head k2 v2 t2
            rw [skipWs_space, hc, List.cons_append,
              skipWs_not_ws _ _ (by decide), ← List.cons_append, ← hc]
          have hm := ihM (JsonObj.cons k2 v2 t2) rest (by simp)
            (by rw [weightO] at hw; omega)
          simp only [hskip1, hv, hskip2, hm]
          rfl

/-- `parseJson` inverts the compact serializer on complete documents. -/
theorem parse_serV (v : JsonValue) :
    parseJson (String.mk (serV v)) = some v := by
  have hb := weightV_le_len v
  have h := (parse_ser_aux ((serV v).length + 1)).1 v [] (by omega) rfl
  rw [List.append_nil] at h
  unfold parseJson
  rw [show (String.mk (serV v)).data = serV v from rfl, h]

/-- Claim C5: round-trip — parsing the string produced by the JSON
formatter's `format_result` on any result representable as a
JSON-compatible mapping yields exactly the result's underlying mapping. -/
theorem json_format_result_roundtrip :
    ∀ kvs : JsonObj,
    parseJson (JsonOutputFormatter.format_result (some (JsonValue.obj kvs))) =
      some (JsonValue.obj kvs) := by
  intro kvs
  exact parse_serV (JsonValue.obj kvs)
